import Mathlib

/-
Verification of the reflective command-interface synthesis and config-mutation
subsystem of dynamite-nsm, shallowly embedded from:
  src/dynamite_nsm/cmd/config_object_interfaces.py
  src/dynamite_nsm/commandline/service_to_commandline.py
Data shapes that live in modules absent from the sources
(services/base/config_objects/*, cmd/base_interface.py) are modelled from the
specification and marked as such in their doc comments.
-/

namespace DynamiteNSM

/-- Python runtime value as it flows through the config mutation engine:
None, bools, ints, strings, and the (homogeneous) list values produced by
nargs-style arguments. -/
inductive Value where
  | vNone : Value
  | vBool (b : Bool) : Value
  | vInt (n : Int) : Value
  | vStr (s : String) : Value
  | vIntList (ns : List Int) : Value
  | vStrList (ss : List String) : Value
  deriving Repr, DecidableEq

/-- Python truthiness of a `Value` (`bool(v)`): None, False, 0, "", [] are falsy. -/
def Value.truthy : Value → Bool
  | .vNone => false
  | .vBool b => b
  | .vInt n => n != 0
  | .vStr s => s != ""
  | .vIntList ns => !ns.isEmpty
  | .vStrList ss => !ss.isEmpty

/-- Truthiness of an optional value (`None` for absent). -/
def truthyOpt : Option Value → Bool
  | none => false
  | some v => v.truthy

/-- Python strings appearing as analyzer values are modelled as character
lists so that suffix reasoning (str.endswith) is elementary. -/
abbrev PyStr := List Char

/-- Embedding of Python `s.endswith(';')` for a character-list string:
true exactly when the last character is the semicolon. -/
def pyEndsWithSemi (s : PyStr) : Bool := s.getLast? == some ';'

/-- Replacement of every occurrence of one character by another, the
character-list form of Python `str.replace` with single-character pattern and
replacement. -/
def replaceChar (a b : Char) : List Char → List Char
  | [] => []
  | c :: cs => (if c == a then b else c) :: replaceChar a b cs

/-- Embedding of `name.replace('_', '-')` used for flag/dest derivation. -/
def hyphenate (s : String) : String := ⟨replaceChar '_' '-' s.toList⟩

/-- Embedding of `action.replace('-', '_')` used to resolve the operation
from the parsed action token (service_to_commandline.py line 240). -/
def deHyphenate (s : String) : String := ⟨replaceChar '-' '_' s.toList⟩

/-
Embedding of the `AnalyzersInterface` flow from
src/dynamite_nsm/cmd/config_object_interfaces.py (lines 20-108).
-/

/-- Modelled from the spec: an AnalyzerCollection item is an addressable
sub-item with an `id`, a `name`, an `enabled` flag and an optional `value`
string (the `services.base.config_objects.generic` module is not among the
sources; the interface code reads exactly these four attributes). -/
structure Analyzer where
  id : Int
  name : String
  enabled : Bool
  value : Option PyStr
  deriving Repr, DecidableEq

/-- The argparse Namespace consumed by `AnalyzersInterface.execute`:
`--ids` (default `[]`), `--enable`, `--disable` store-true flags, and the
optional `--value` string (`getattr(args, 'value', None)` is `none` both when
the flag was never defined and when it was not supplied). -/
structure AnalyzersArgs where
  analyzer_ids : List Int
  enable : Bool
  disable : Bool
  value : Option PyStr
  deriving Repr, DecidableEq

/-- Truthiness of an optional Python string (absent or empty is falsy). -/
def truthyOptStr : Option PyStr → Bool
  | none => false
  | some s => !s.isEmpty

/-- Canonicalization of a supplied `--value` string, config_object_interfaces.py
lines 94-95: append a `';'` terminator exactly when the string does not
already end with one. -/
def canonValue (v : PyStr) : PyStr :=
  if pyEndsWithSemi v then v else v ++ [';']

/-- One loop step of `AnalyzersInterface.execute` (lines 86-96) applied to a
single analyzer: if its id is selected, disable wins over enable (the source
tests `args.disable` first, `args.enable` only in the `elif`), then a truthy
supplied value is canonicalized and assigned. Unselected analyzers are
untouched. -/
def applyToAnalyzer (args : AnalyzersArgs) (a : Analyzer) : Analyzer :=
  if args.analyzer_ids.contains a.id then
    let a1 :=
      if args.disable then { a with enabled := false }
      else if args.enable then { a with enabled := true }
      else a
    if truthyOptStr args.value then
      { a1 with value := some (canonValue ((args.value).getD [])) }
    else a1
  else a

/-- A row of the tabulated output: `[id, name, enabled, value-or-N/A]`. -/
structure AnalyzerRow where
  id : Int
  name : String
  enabled : Bool
  value : PyStr
  deriving Repr, DecidableEq

/-- Rendering of an analyzer into a report row (lines 97-98 and 102-104):
the value cell shows the stored value when truthy, otherwise `'N/A'`. -/
def analyzerRow (a : Analyzer) : AnalyzerRow :=
  { id := a.id, name := a.name, enabled := a.enabled,
    value := match a.value with
      | some s => if s.isEmpty then "N/A".toList else s
      | none => "N/A".toList }

/-- The value an `AnalyzersInterface.execute` pass returns: either the
tabulated read-only report (ids empty) or the mutated collection. -/
inductive AnalyzersResult where
  | report (rows : List AnalyzerRow) : AnalyzersResult
  | collection (analyzers : List Analyzer) : AnalyzersResult
  deriving Repr, DecidableEq

/-- Full outcome of an `AnalyzersInterface.execute` pass: the collection as it
stands after the pass (the Python code mutates it in place), the recorded
`changed_rows`, and the returned value. -/
structure AnalyzersOutcome where
  analyzers : List Analyzer
  changed_rows : List AnalyzerRow
  result : AnalyzersResult
  deriving Repr, DecidableEq

/-- Embedding of `AnalyzersInterface.execute` (config_object_interfaces.py
lines 68-108). Each analyzer is visited once; selected analyzers are mutated
by `applyToAnalyzer` and recorded into `selected_items`. If no ids were
supplied the pass returns the tabulated snapshot of every item and
`changed_rows` stays empty (the `table` built with headers on lines 77-85 is
never returned and is omitted); otherwise `changed_rows` is set to the
selected rows and the mutated collection object itself is returned. -/
def analyzersExecute (analyzers : List Analyzer) (args : AnalyzersArgs) :
    AnalyzersOutcome :=
  let newAnalyzers := analyzers.map (applyToAnalyzer args)
  if args.analyzer_ids.isEmpty then
    { analyzers := newAnalyzers, changed_rows := [],
      result := .report (newAnalyzers.map analyzerRow) }
  else
    { analyzers := newAnalyzers,
      changed_rows :=
        (newAnalyzers.filter (fun a => args.analyzer_ids.contains a.id)).map
          analyzerRow,
      result := .collection newAnalyzers }

/-
Embedding of src/dynamite_nsm/commandline/service_to_commandline.py.
Python identifiers are kept where the verification environment allows it;
`derive_params_from_type_annotation` and `create_from_typing_annotation`
appear as `deriveParamsFromTypeAnn` and `createFromTypingAnn`.
-/

/-- Does the first character list start the second. -/
def prefixMatch : List Char → List Char → Bool
  | [], _ => true
  | _ :: _, [] => false
  | c :: cs, d :: ds => c == d && prefixMatch cs ds

/-- Does the needle occur contiguously inside the hay. -/
def subSearch (needle : List Char) : List Char → Bool
  | [] => needle.isEmpty
  | c :: rest => prefixMatch needle (c :: rest) || subSearch needle rest

/-- Embedding of Python `needle in hay` substring membership over the
character lists of the two strings. -/
def containsSub (hay needle : String) : Bool :=
  subSearch needle.toList hay.toList

/-- The kwargs dictionary assembled by `derive_params_from_type_annotation`
(service_to_commandline.py lines 62-70). A `none` field models a key dropped
by the final `v is not None and v != ''` comprehension; `help` is the key
later installed by `add_description`. -/
structure DerivedArgs where
  required : Bool
  action : Option String
  default : Option Value
  nargs : Option String
  type : Option String
  help : Option String
  deriving Repr, DecidableEq

/-- The comprehension on line 70 drops a default that is `None` or `''`
(all other values, falsy ones included, survive). -/
def dropEmptyDefault (d : Option Value) : Option Value :=
  if d == some (Value.vStr "") then none else d

/-- Embedding of `ArgparseParameters.derive_params_from_type_annotation`
(service_to_commandline.py lines 36-71). The argument is the `str()` image of
the annotation; `required` starts true and is cleared by a truthy default or
an `Union`+`NoneType` annotation; `List` yields `nargs='+'`; the
bool/int/float/str `elif` chain picks the type, `str` being the initial
fallback. -/
def deriveParamsFromTypeAnn (python_type : String) (default : Option Value) :
    DerivedArgs :=
  let required0 := true
  let required1 := if truthyOpt default then false else required0
  let required2 :=
    if containsSub python_type "Union" && containsSub python_type "NoneType"
    then false else required1
  let nargs := if containsSub python_type "List" then some "+" else none
  let actionTy : Option String × Option String :=
    if containsSub python_type "bool" then (some "store_true", none)
    else if containsSub python_type "int" then (none, some "int")
    else if containsSub python_type "float" then (none, some "float")
    else if containsSub python_type "str" then (none, some "str")
    else (none, some "str")
  { required := required2, action := actionTy.1,
    default := dropEmptyDefault default, nargs := nargs, type := actionTy.2,
    help := none }

/-- Embedding of an `ArgparseParameters` instance: the parameter `name`, the
derived `flags` list, and the kwargs dictionary. -/
structure ArgparseParametersL where
  name : String
  flags : List String
  kwargs : DerivedArgs
  deriving Repr, DecidableEq

/-- Embedding of `ArgparseParameters.create_from_typing_annotation` together
with `__init__` (lines 11-34): the single flag is `'--' + name.replace('_','-')`
and the kwargs come from the type-annotation mapper. -/
def createFromTypingAnn (name : String) (python_type : String)
    (default : Option Value) : ArgparseParametersL :=
  { name := name, flags := ["--" ++ hyphenate name],
    kwargs := deriveParamsFromTypeAnn python_type default }

/-- Python `dict.get` over an assoc list built by insertion-overwrite:
the last binding for a key wins. -/
def dictGet {β : Type} (d : List (String × β)) (k : String) : Option β :=
  ((d.filter (fun p => p.1 == k)).getLast?).map (fun p => p.2)

/-- Truthiness of the `defaults` dictionary itself (`if defaults and ...`):
absent (`None`) or empty dictionaries are falsy. -/
def defaultsTruthy (defaults : Option (List (String × Value))) : Bool :=
  match defaults with
  | none => false
  | some d => !d.isEmpty

/-- Lookup into an optional defaults dictionary (`defaults.get(param_name)`,
`None` when the dictionary is absent or lacks the key). -/
def defaultsGet (defaults : Option (List (String × Value))) (k : String) :
    Option Value :=
  match defaults with
  | none => none
  | some d => dictGet d k

/-- Embedding of `get_argparse_parameters` (service_to_commandline.py lines
80-109). `anns` is the annotation dictionary as ordered (name, str-of-type)
pairs; `docParams` is the docstring-parser output abstracted to
(arg_name, description) pairs feeding `param_map`. A parameter named `return`
is skipped; a parameter whose name has a truthy entry in a truthy `defaults`
dictionary is re-created with that default; a resolvable description is
installed as the `help` kwarg, a missing one is ignored (`KeyError: pass`). -/
def getArgparseParameters (anns : List (String × String))
    (docParams : List (String × String))
    (defaults : Option (List (String × Value))) : List ArgparseParametersL :=
  match anns with
  | [] => []
  | (param_name, data_type) :: rest =>
    if param_name == "return" then getArgparseParameters rest docParams defaults
    else
      let ap0 := createFromTypingAnn param_name data_type none
      let ap1 :=
        if defaultsTruthy defaults && truthyOpt (defaultsGet defaults param_name)
        then createFromTypingAnn param_name data_type
               (defaultsGet defaults param_name)
        else ap0
      let ap2 :=
        match dictGet docParams param_name with
        | some d => { ap1 with kwargs := { ap1.kwargs with help := some d } }
        | none => ap1
      ap2 :: getArgparseParameters rest docParams defaults


/-
Embedding of `get_function_definition` and `get_class_instance_methods`
(service_to_commandline.py lines 112-175).
-/

/-- The (name, annotations, parsed docstring params) triple that
`get_function_definition` extracts from a callable member. For `__init__` the
annotation dictionary holds the `str()` images of the `inspect.Parameter`
objects (minus `self`); for other callables it is `__annotations__`. -/
structure FuncDef where
  name : String
  anns : List (String × String)
  docParams : List (String × String)
  deriving Repr, DecidableEq

/-- One entry of a class `__dict__`: `none` models a member for which
`get_function_definition` returns `None` (not callable, or the
`AttributeError` path on lines 172-174), which the walk skips. -/
abbrev ClassMember := Option FuncDef

/-- A class of the inheritance walk: its `__dict__.values()` in definition
order. -/
structure PyClass where
  members : List ClassMember
  deriving Repr, DecidableEq

/-- Python dictionary assignment `d[k] = v` over an insertion-ordered assoc
list: an existing binding is overwritten in place, a new key is appended. -/
def dictAssign {β : Type} (d : List (String × β)) (k : String) (v : β) :
    List (String × β) :=
  match d with
  | [] => [(k, v)]
  | (k0, v0) :: rest =>
    if k0 == k then (k, v) :: rest else (k0, v0) :: dictAssign rest k v

/-- Inner loop of `get_class_instance_methods` over one class `__dict__`
(lines 128-140): members without a function definition are skipped, the
constructor is skipped by name, and every other definition is assigned into
`interface_functions` — overwriting any entry an earlier (more derived) class
stored under the same name. -/
def membersLoop (defaults : Option (List (String × Value))) :
    List ClassMember → List (String × List ArgparseParametersL) →
    List (String × List ArgparseParametersL)
  | [], acc => acc
  | none :: rest, acc => membersLoop defaults rest acc
  | some fd :: rest, acc =>
    if fd.name == "__init__" then membersLoop defaults rest acc
    else
      membersLoop defaults rest
        (dictAssign acc fd.name
          (getArgparseParameters fd.anns fd.docParams defaults))

/-- Outer loop of `get_class_instance_methods` over `cls.__mro__`
(line 127), most derived class first. -/
def mroLoop (defaults : Option (List (String × Value))) :
    List PyClass → List (String × List ArgparseParametersL) →
    List (String × List ArgparseParametersL)
  | [], acc => acc
  | c :: rest, acc => mroLoop defaults rest (membersLoop defaults c.members acc)

/-- The function definitions the inheritance walk visits, in walk order:
every member of every class of the `__mro__`, most derived class first,
skipping members without a definition and the constructor. -/
def walkDefs (mro : List PyClass) : List FuncDef :=
  (((mro.map (fun c => c.members)).flatten).filterMap id).filter
    (fun fd => fd.name != "__init__")

/-- Embedding of `get_class_instance_methods` (lines 112-152): the pair of
base (constructor) parameters and the operation map. `mro` is the target
type's `__mro__` and `initDef` the function definition of the constructor the
caller selects (`cls.__init__` when `use_parent_init` is false, the parent's
otherwise). -/
def getClassInstanceMethods (mro : List PyClass) (initDef : FuncDef)
    (defaults : Option (List (String × Value))) :
    List ArgparseParametersL × List (String × List ArgparseParametersL) :=
  (getArgparseParameters initDef.anns initDef.docParams defaults,
   mroLoop defaults mro [])

/-
A minimal model of the `argparse.ArgumentParser` surface the assemblers use:
`add_argument` for optional flags (raising `ArgumentError` on an option
string conflict under the default conflict handler), one positional
`action` argument with a closed choices set, and the choices check that
`parse_args` applies to a supplied action token.
-/

/-- One optional argument already added to a parser. -/
structure ParserArg where
  flags : List String
  kwargs : DerivedArgs
  deriving Repr, DecidableEq

/-- A parser: its optional arguments in addition order, and the positional
`action` argument (name and choices) when one was added. -/
structure ParserL where
  optArgs : List ParserArg
  positional : Option (String × List String)
  deriving Repr, DecidableEq

/-- The fresh `argparse.ArgumentParser()` the interfaces start from. -/
def emptyParser : ParserL := { optArgs := [], positional := none }

/-- The errors this model distinguishes: an `argparse.ArgumentError` from a
conflicting option string, and the `IndexError` raised by indexing an empty
analyzer collection. -/
inductive PyErr where
  | argumentErr : PyErr
  | indexErr : PyErr
  deriving Repr, DecidableEq

/-- Does the parser already define the option string `f`. -/
def parserHasFlag (p : ParserL) (f : String) : Bool :=
  p.optArgs.any (fun a => a.flags.contains f)

/-- Model of `parser.add_argument(*flags, **kwargs)` for an optional
argument: argparse raises `ArgumentError` when any supplied option string is
already in use, otherwise the argument is appended. -/
def ParserL.addArgument (p : ParserL) (a : ArgparseParametersL) :
    Except PyErr ParserL :=
  if a.flags.any (fun f => parserHasFlag p f) then .error .argumentErr
  else .ok { p with optArgs := p.optArgs ++ [⟨a.flags, a.kwargs⟩] }

/-- Adding a list of arguments with no exception handler: the first conflict
aborts assembly, as in `SingleResponsibilityInterface.get_parser` and
`MultipleResponsibilityInterface.get_parser`. -/
def addAll (p : ParserL) : List ArgparseParametersL → Except PyErr ParserL
  | [] => .ok p
  | a :: rest =>
    match p.addArgument a with
    | .error e => .error e
    | .ok p1 => addAll p1 rest

/-- Adding a list of arguments under `try: ... except ArgumentError: continue`
(the loop of `FilebeatTargetsInterface.build_parser`, config_object_interfaces
lines 154-157): a conflicting argument is silently skipped and the earlier
argument for that flag is kept. -/
def addAllSkip (p : ParserL) : List ArgparseParametersL → ParserL
  | [] => p
  | a :: rest =>
    match p.addArgument a with
    | .error _ => addAllSkip p rest
    | .ok p1 => addAllSkip p1 rest

/-- The zero-parameter whitelisted action tokens in operation-map order:
the loop on service_to_commandline.py lines 208-214 walks
`interface_methods.items()` and records `method.replace('_','-')` for every
whitelisted method whose parameter group is empty. -/
def zeroParamActions (methods : List (String × List ArgparseParametersL))
    (supported : List String) : List String :=
  (methods.filter
      (fun m => supported.contains m.1 && m.2.isEmpty)).map
    (fun m => hyphenate m.1)

/-- The inner loop of `MultipleResponsibilityInterface.get_parser`
(lines 208-214): flags of whitelisted non-zero-parameter operations are added
(no exception handler), zero-parameter whitelisted operations are collected as
action tokens. -/
def mriMethodsLoop (p : ParserL) :
    List (String × List ArgparseParametersL) → List String → List String →
    Except PyErr (ParserL × List String)
  | [], _, actions => .ok (p, actions)
  | (m, group) :: rest, supported, actions =>
    if supported.contains m then
      if group.isEmpty then
        mriMethodsLoop p rest supported (actions ++ [hyphenate m])
      else
        match addAll p group with
        | .error e => .error e
        | .ok p1 => mriMethodsLoop p1 rest supported actions
    else mriMethodsLoop p rest supported actions

/-- Embedding of `MultipleResponsibilityInterface.get_parser` (lines 198-217):
base flags first, then the whitelisted operations, then — only when at least
one zero-parameter action was recorded — the positional `action` argument
whose choices are exactly the recorded tokens. -/
def mriGetParser (base : List ArgparseParametersL)
    (methods : List (String × List ArgparseParametersL))
    (supported : List String) : Except PyErr ParserL :=
  match addAll emptyParser base with
  | .error e => .error e
  | .ok p0 =>
    match mriMethodsLoop p0 methods supported [] with
    | .error e => .error e
    | .ok (p1, actions) =>
      if actions.isEmpty then .ok p1
      else .ok { p1 with positional := some ("action", actions) }

/-- A usage error as argparse reports it from `parse_args` on a positional
token outside the declared choices (or on a positional the grammar does not
declare). -/
inductive UsageErr where
  | usage : UsageErr
  deriving Repr, DecidableEq

/-- The choices validation `argparse.ArgumentParser.parse_args` applies to
the supplied action token: accepted exactly when the grammar declares a
positional and the token is among its choices. -/
def checkActionToken (p : ParserL) (token : String) : Except UsageErr String :=
  match p.positional with
  | none => .error .usage
  | some (_, choices) =>
    if choices.contains token then .ok token else .error .usage

/-- What a successful multiple-responsibility run records: the target type
was instantiated and the resolved operation (the token with hyphens turned
back into underscores, line 240) was invoked. -/
structure DispatchTrace where
  instantiated : Bool
  invokedOperation : String
  deriving Repr, DecidableEq

/-- Parse-then-dispatch for a multiple-responsibility grammar: `parse_args`
validates the action token against the choices, and only on success does
`MultipleResponsibilityInterface.execute` (lines 219-246) instantiate the
target type and invoke the resolved operation. A rejected token yields the
usage error and no instantiation ever happens. -/
def mriParseThenDispatch (p : ParserL) (token : String) :
    Except UsageErr DispatchTrace :=
  match checkActionToken p token with
  | .error e => .error e
  | .ok t => .ok { instantiated := true,
                   invokedOperation := deHyphenate t }

/-- Embedding of `SingleResponsibilityInterface.get_parser` (lines 281-293):
base flags first, then the entry operation's flags, added with no exception
handler — an option-string conflict propagates as `ArgumentError` and no
grammar is produced. -/
def sriGetParser (base : List ArgparseParametersL)
    (interfaceParams : List ArgparseParametersL) : Except PyErr ParserL :=
  match addAll emptyParser base with
  | .error e => .error e
  | .ok p0 => addAll p0 interfaceParams

/-
Embedding of `AnalyzersInterface.build_parser`
(config_object_interfaces.py lines 36-57).
-/

/-- The `--ids` argument added on lines 49-50 (`nargs='+'`, `type=int`,
`default=[]`). -/
def idsArg : ArgparseParametersL :=
  { name := "analyzer_ids", flags := ["--ids"],
    kwargs := { required := false, action := none,
                default := some (Value.vIntList []), nargs := some "+",
                type := some "int",
                help := some "Specify one or more ids for the config object you want to work with." } }

/-- The `--enable` store-true argument added on line 51. -/
def enableArg : ArgparseParametersL :=
  { name := "enable", flags := ["--enable"],
    kwargs := { required := false, action := some "store_true",
                default := none, nargs := none, type := none,
                help := some "Enable selected object." } }

/-- The `--disable` store-true argument added on line 52. -/
def disableArg : ArgparseParametersL :=
  { name := "disable", flags := ["--disable"],
    kwargs := { required := false, action := some "store_true",
                default := none, nargs := none, type := none,
                help := some "Disable selected object" } }

/-- The `--value` argument added on lines 54-55 when the first analyzer has a
truthy `value`. -/
def valueArg : ArgparseParametersL :=
  { name := "value", flags := ["--value"],
    kwargs := { required := false, action := none, default := none,
                nargs := none, type := some "str",
                help := some "The value associated with the selected object" } }

/-- Embedding of `AnalyzersInterface.build_parser` (lines 36-57): the three
fixed arguments are added first, and only then does line 53 index
`interface.config_obj.analyzers[0]` — on an empty collection that indexing
raises `IndexError`, so the build fails after the adds. The `choices` list
built on lines 46-48 is dead and omitted. -/
def analyzersBuildParser (analyzers : List Analyzer) (p : ParserL) :
    Except PyErr ParserL :=
  match addAll p [idsArg, enableArg, disableArg] with
  | .error e => .error e
  | .ok p1 =>
    match analyzers with
    | [] => .error .indexErr
    | a :: _ =>
      if truthyOptStr a.value then p1.addArgument valueArg else .ok p1

/-- Embedding of `AnalyzersInterface.get_parser` (lines 59-66): build onto a
fresh `argparse.ArgumentParser()`. -/
def analyzersGetParser (analyzers : List Analyzer) : Except PyErr ParserL :=
  analyzersBuildParser analyzers emptyParser

/-
Embedding of `FilebeatTargetsInterface.execute`
(config_object_interfaces.py lines 170-206).
-/

/-- Modelled from the spec: a TargetConfigObject is a bag of named typed
instance fields plus an `enabled` field gating whether the target is active
(the `services.base.config_objects.filebeat.targets` module is not among the
sources). `vars` holds the non-`enabled` instance attributes with unique
names. -/
structure TargetConfig where
  vars : List (String × Value)
  enabled : Bool
  deriving Repr, DecidableEq

/-- Embedding of `getattr(obj, option, None)` over the attribute bag
(attribute names are unique, so the first binding is the binding). -/
def getattrOpt (vars : List (String × Value)) (k : String) : Option Value :=
  (vars.find? (fun p => p.1 == k)).map (fun p => p.2)

/-- Embedding of `setattr(obj, option, value)`: overwrite the attribute in
place, or create it. -/
def setattrVar (vars : List (String × Value)) (k : String) (v : Value) :
    List (String × Value) :=
  dictAssign vars k v

/-- The argparse Namespace consumed by `FilebeatTargetsInterface.execute`:
the parsed field values (`args.__dict__` minus the two store-true toggles,
which build_parser defines with dests `enable` and `disable` on lines
158-159) and the toggles themselves. -/
structure FTArgs where
  fields : List (String × Value)
  enable : Bool
  disable : Bool
  deriving Repr, DecidableEq

/-- The value a `FilebeatTargetsInterface.execute` pass returns: the
tabulated read-only report or the mutated config object. -/
inductive FTResult where
  | report (rows : List (String × Value)) : FTResult
  | obj (cfg : TargetConfig) : FTResult
  deriving Repr, DecidableEq

/-- Full outcome of a `FilebeatTargetsInterface.execute` pass: the config
object as it stands after the pass, the recorded `changed_rows`, the
read-only `table` accumulated for falsy fields, and the returned value. -/
structure FTOutcome where
  config : TargetConfig
  changed_rows : List (String × Value)
  table : List (String × Value)
  result : FTResult
  deriving Repr, DecidableEq

/-- The read-only row built for a falsy field (lines 188-192): the
hyphenated option name paired with the config object's current value when
that is truthy, with `'N/A'` otherwise (also when the attribute is absent,
`getattr` returning `None`). -/
def ftCell (cfg : TargetConfig) (option : String) : String × Value :=
  let cur := (getattrOpt cfg.vars option).getD Value.vNone
  if cur.truthy then (hyphenate option, cur)
  else (hyphenate option, Value.vStr "N/A")

/-- The loop of `FilebeatTargetsInterface.execute` over `args.__dict__.items()`
(lines 181-195), threading the config object left to right. `reserved` stands
for `RESERVED_VARIABLE_NAMES` and `defaults` for the keys of `self.defaults`
— both declared in `cmd/base_interface.py`, which is not among the sources,
so they stay parameters here. The toggles, defaulted names and reserved names
are skipped; a falsy value contributes a `(hyphenated-name, current-or-N/A)`
table row; a truthy value is recorded into `changed_rows` and assigned onto
the config object. -/
def ftLoop (reserved defaults : List String) (cfg : TargetConfig) :
    List (String × Value) →
    TargetConfig × List (String × Value) × List (String × Value)
  | [] => (cfg, [], [])
  | (option, value) :: rest =>
    if option == "enable" || option == "disable" then
      ftLoop reserved defaults cfg rest
    else if defaults.contains option then ftLoop reserved defaults cfg rest
    else if reserved.contains option then ftLoop reserved defaults cfg rest
    else if !value.truthy then
      let res := ftLoop reserved defaults cfg rest
      (res.1, res.2.1, ftCell cfg option :: res.2.2)
    else
      let cfg1 := { cfg with vars := setattrVar cfg.vars option value }
      let res := ftLoop reserved defaults cfg1 rest
      (res.1, (hyphenate option, value) :: res.2.1, res.2.2)

/-- Embedding of `FilebeatTargetsInterface.execute` (lines 170-206): run the
field loop, then apply the toggles — `enable` first, `disable` only in the
`elif` — each appending an `enabled` change row; finally return the tabulated
report (with the current enabled state appended) when `changed_rows` stayed
empty, and the mutated config object otherwise. -/
def ftExecute (reserved defaults : List String) (cfg : TargetConfig)
    (args : FTArgs) : FTOutcome :=
  let res := ftLoop reserved defaults cfg args.fields
  let cfg1 := res.1
  let chg := res.2.1
  let tbl := res.2.2
  let afterToggles : TargetConfig × List (String × Value) :=
    if args.enable then
      ({ cfg1 with enabled := true }, chg ++ [("enabled", Value.vBool true)])
    else if args.disable then
      ({ cfg1 with enabled := false }, chg ++ [("enabled", Value.vBool false)])
    else (cfg1, chg)
  let cfg2 := afterToggles.1
  let chg2 := afterToggles.2
  if chg2.isEmpty then
    { config := cfg2, changed_rows := chg2, table := tbl,
      result := .report (tbl ++ [("enabled", Value.vBool cfg2.enabled)]) }
  else
    { config := cfg2, changed_rows := chg2, table := tbl,
      result := .obj cfg2 }

/-
Supporting lemmas about the analyzer mutation step.
-/

/-- The mutation step never changes an analyzer's id. -/
theorem applyToAnalyzer_id (args : AnalyzersArgs) (a : Analyzer) :
    (applyToAnalyzer args a).id = a.id := by
  by_cases hm : a.id ∈ args.analyzer_ids
  · cases hd : args.disable <;> cases he : args.enable <;>
      cases hv : truthyOptStr args.value <;>
        simp [applyToAnalyzer, hm, hd, he, hv]
  · simp [applyToAnalyzer, hm]

/-- A selected analyzer ends a pass with `enabled = false` whenever the
disable flag is set, whatever the enable flag says. -/
theorem applyToAnalyzer_enabled_false (args : AnalyzersArgs) (a : Analyzer)
    (hc : args.analyzer_ids.contains a.id = true)
    (hd : args.disable = true) : (applyToAnalyzer args a).enabled = false := by
  have hm : a.id ∈ args.analyzer_ids := by simpa using hc
  cases hv : truthyOptStr args.value <;>
    simp [applyToAnalyzer, hm, hd, hv]

/-- A selected analyzer receives the canonicalized value whenever a truthy
value was supplied. -/
theorem applyToAnalyzer_value (args : AnalyzersArgs) (a : Analyzer)
    (hc : args.analyzer_ids.contains a.id = true)
    (hv : truthyOptStr args.value = true) :
    (applyToAnalyzer args a).value =
      some (canonValue ((args.value).getD [])) := by
  have hm : a.id ∈ args.analyzer_ids := by simpa using hc
  cases hd : args.disable <;> cases he : args.enable <;>
    simp [applyToAnalyzer, hm, hd, he, hv]

/-- Both branches of the pass leave the same mutated collection in the
interface's `config_obj`. -/
theorem analyzersExecute_analyzers (l : List Analyzer) (args : AnalyzersArgs) :
    (analyzersExecute l args).analyzers = l.map (applyToAnalyzer args) := by
  cases h : args.analyzer_ids.isEmpty <;> simp [analyzersExecute, h]

/-- Appending one character to a character-list string makes it the last. -/
theorem getLast?_append_singleton (l : List Char) (c : Char) :
    (l ++ [c]).getLast? = some c := by
  induction l with
  | nil => rfl
  | cons x xs ih =>
    cases xs with
    | nil => rfl
    | cons y ys => simpa using ih

/-- C10: building the parser for an `AnalyzersInterface` over an empty
collection fails: whatever parser the build starts from, line 53's indexing
of `analyzers[0]` (or an earlier option-string conflict) raises, and on the
fresh parser of `get_parser` the failure is exactly the `IndexError`; the
empty collection is outside the operation's domain. -/
theorem c10_empty_collection_fails (p : ParserL) :
    (∃ e, analyzersBuildParser [] p = Except.error e) ∧
    analyzersGetParser [] = Except.error PyErr.indexErr := by
  constructor
  · unfold analyzersBuildParser
    cases h : addAll p [idsArg, enableArg, disableArg] with
    | error e => exact ⟨e, by simp [h]⟩
    | ok p1 => exact ⟨PyErr.indexErr, by simp [h]⟩
  · rfl

/-- C7: an execution pass with an empty id selection returns the tabulated
snapshot of every item's (id, name, enabled, value-or-N/A), leaves every
analyzer untouched, and records an empty ChangeSet. -/
theorem c7_empty_selection_report (analyzers : List Analyzer)
    (args : AnalyzersArgs) (h : args.analyzer_ids = []) :
    analyzersExecute analyzers args =
      { analyzers := analyzers, changed_rows := [],
        result := .report (analyzers.map analyzerRow) } := by
  have hid : ∀ a : Analyzer, applyToAnalyzer args a = a := by
    intro a
    unfold applyToAnalyzer
    rw [h]
    rfl
  have hmap : analyzers.map (applyToAnalyzer args) = analyzers := by
    induction analyzers with
    | nil => rfl
    | cons a rest ih => simp [hid, ih]
  simp [analyzersExecute, hmap, h]

/-- Witness for C7 at the spec's three-item example collection. -/
theorem c7_empty_selection_report_witness :
    (({ analyzer_ids := [], enable := false, disable := false,
        value := none } : AnalyzersArgs).analyzer_ids = []) ∧
    analyzersExecute
        [⟨1, "A", false, none⟩, ⟨2, "B", true, some "x;".toList⟩,
         ⟨3, "C", false, none⟩]
        { analyzer_ids := [], enable := false, disable := false,
          value := none } =
      { analyzers := [⟨1, "A", false, none⟩, ⟨2, "B", true, some "x;".toList⟩,
                      ⟨3, "C", false, none⟩],
        changed_rows := [],
        result := .report
          ([⟨1, "A", false, none⟩, ⟨2, "B", true, some "x;".toList⟩,
            ⟨3, "C", false, none⟩].map analyzerRow) } :=
  ⟨rfl, c7_empty_selection_report _ _ rfl⟩

/-- C1 counterexample: on a selected analyzer with both flags supplied the
pass ends with `enabled = false` — `AnalyzersInterface.execute` tests
`args.disable` first (line 89) and `args.enable` only in the `elif`
(line 91), so disable, not enable, takes precedence. -/
theorem c1_counterexample :
    analyzersExecute [⟨1, "A", true, none⟩]
        { analyzer_ids := [1], enable := true, disable := true,
          value := none } =
      { analyzers := [⟨1, "A", false, none⟩],
        changed_rows := [⟨1, "A", false, "N/A".toList⟩],
        result := .collection [⟨1, "A", false, none⟩] } ∧
    (Analyzer.mk 1 "A" false none).enabled ≠ true := by
  exact ⟨rfl, by decide⟩

/-- C1 (amended): in an `AnalyzersInterface` mutation pass with at least one
id selected and both flags supplied, disable takes precedence: the pass
returns the mutated collection and every selected item ends the pass with
`enabled = false`. -/
theorem c1_disable_precedence (analyzers : List Analyzer)
    (args : AnalyzersArgs) (_henb : args.enable = true)
    (hdis : args.disable = true) (hids : args.analyzer_ids ≠ []) :
    (analyzersExecute analyzers args).result =
      AnalyzersResult.collection ((analyzersExecute analyzers args).analyzers) ∧
    ∀ a ∈ (analyzersExecute analyzers args).analyzers,
      args.analyzer_ids.contains a.id = true → a.enabled = false := by
  have hne : args.analyzer_ids.isEmpty = false := by
    cases hl : args.analyzer_ids with
    | nil => exact absurd hl hids
    | cons x xs => rfl
  constructor
  · simp [analyzersExecute, hne]
  · intro a ha hc
    rw [analyzersExecute_analyzers] at ha
    rw [List.mem_map] at ha
    obtain ⟨b, hb, rfl⟩ := ha
    rw [applyToAnalyzer_id] at hc
    exact applyToAnalyzer_enabled_false args b hc hdis

/-- Witness for the amended C1 at a one-item collection. -/
theorem c1_disable_precedence_witness :
    (({ analyzer_ids := [1], enable := true, disable := true,
        value := none } : AnalyzersArgs).enable = true) ∧
    (({ analyzer_ids := [1], enable := true, disable := true,
        value := none } : AnalyzersArgs).disable = true) ∧
    (({ analyzer_ids := [1], enable := true, disable := true,
        value := none } : AnalyzersArgs).analyzer_ids ≠ []) ∧
    ∀ a ∈ (analyzersExecute [⟨1, "A", true, none⟩]
        { analyzer_ids := [1], enable := true, disable := true,
          value := none }).analyzers,
      ({ analyzer_ids := [1], enable := true, disable := true,
         value := none } : AnalyzersArgs).analyzer_ids.contains a.id = true →
        a.enabled = false :=
  ⟨rfl, rfl, by decide,
   (c1_disable_precedence [⟨1, "A", true, none⟩] _ rfl rfl (by decide)).2⟩

/-- C9: when items are selected and a truthy value string is supplied, the
value is canonicalized — the `';'` terminator is appended exactly when the
supplied string does not already end with one — the canonical string ends
with `';'`, and it is assigned to every selected item. -/
theorem c9_value_canonicalization (analyzers : List Analyzer)
    (args : AnalyzersArgs) (v : PyStr) (hv : args.value = some v)
    (hvne : v ≠ []) (_hids : args.analyzer_ids ≠ []) :
    (pyEndsWithSemi v = true → canonValue v = v) ∧
    (pyEndsWithSemi v = false → canonValue v = v ++ [';']) ∧
    pyEndsWithSemi (canonValue v) = true ∧
    ∀ a ∈ (analyzersExecute analyzers args).analyzers,
      args.analyzer_ids.contains a.id = true →
        a.value = some (canonValue v) := by
  refine ⟨fun h => by simp [canonValue, h], fun h => by simp [canonValue, h],
          ?_, ?_⟩
  · cases h : pyEndsWithSemi v with
    | true =>
      have hcv : canonValue v = v := by simp [canonValue, h]
      rw [hcv]
      exact h
    | false =>
      have hcv : canonValue v = v ++ [';'] := by simp [canonValue, h]
      rw [hcv]
      simp [pyEndsWithSemi, getLast?_append_singleton]
  · intro a ha hc
    rw [analyzersExecute_analyzers] at ha
    rw [List.mem_map] at ha
    obtain ⟨b, hb, rfl⟩ := ha
    rw [applyToAnalyzer_id] at hc
    have htr : truthyOptStr args.value = true := by
      rw [hv]
      cases v with
      | nil => exact absurd rfl hvne
      | cons c cs => rfl
    rw [applyToAnalyzer_value args b hc htr, hv]
    rfl

/-- Witness for C9: a one-item selection with value `x` ends with the stored
value `x;`. -/
theorem c9_value_canonicalization_witness :
    (pyEndsWithSemi "x".toList = true → canonValue "x".toList = "x".toList) ∧
    (pyEndsWithSemi "x".toList = false →
       canonValue "x".toList = "x".toList ++ [';']) ∧
    pyEndsWithSemi (canonValue "x".toList) = true ∧
    ∀ a ∈ (analyzersExecute [⟨1, "A", false, none⟩]
        { analyzer_ids := [1], enable := false, disable := false,
          value := some "x".toList }).analyzers,
      ({ analyzer_ids := [1], enable := false, disable := false,
         value := some "x".toList } : AnalyzersArgs).analyzer_ids.contains
          a.id = true →
        a.value = some (canonValue "x".toList) :=
  c9_value_canonicalization [⟨1, "A", false, none⟩] _ _ rfl (by decide)
    (by decide)

/-- C3 counterexample: a constructor parameter lacking a type annotation (its
`str(inspect.Parameter)` image is just the bare name, here `x`) does not fail
extraction — `get_argparse_parameters` returns a required `str`-typed flag,
no `MissingTypeAnnotation` error exists anywhere in the module, and grammar
assembly over the result succeeds. -/
theorem c3_counterexample :
    getArgparseParameters [("x", "x")] [] none =
      [{ name := "x", flags := ["--x"],
         kwargs := { required := true, action := none, default := none,
                     nargs := none, type := some "str", help := none } }] ∧
    sriGetParser (getArgparseParameters [("x", "x")] [] none) [] =
      Except.ok
        { optArgs :=
            [{ flags := ["--x"],
               kwargs := { required := true, action := none, default := none,
                           nargs := none, type := some "str",
                           help := none } }],
          positional := none } := by
  exact ⟨rfl, rfl⟩

/-- C3 (amended): a constructor parameter whose rendered annotation contains
none of the recognized type keywords — which is what a parameter lacking a
type annotation renders to — does not raise; extraction succeeds and maps it
to a required, `str`-typed flag with no default; only members without
retrievable metadata are skipped. -/
theorem c3_untyped_param_maps_to_str (n pt : String)
    (docs : List (String × String)) (hret : (n == "return") = false)
    (h1 : containsSub pt "Union" = false)
    (h2 : containsSub pt "List" = false)
    (h3 : containsSub pt "bool" = false)
    (h4 : containsSub pt "int" = false)
    (h5 : containsSub pt "float" = false)
    (h6 : containsSub pt "str" = false) :
    ∃ ap, getArgparseParameters [(n, pt)] docs none = [ap] ∧
      ap.name = n ∧ ap.flags = ["--" ++ hyphenate n] ∧
      ap.kwargs.required = true ∧ ap.kwargs.action = none ∧
      ap.kwargs.default = none ∧ ap.kwargs.nargs = none ∧
      ap.kwargs.type = some "str" := by
  have hk : deriveParamsFromTypeAnn pt none =
      { required := true, action := none, default := none, nargs := none,
        type := some "str", help := none } := by
    simp [deriveParamsFromTypeAnn, truthyOpt, dropEmptyDefault, h1, h2, h3,
          h4, h5, h6]
  cases hd : dictGet docs n with
  | none =>
    refine ⟨createFromTypingAnn n pt none, ?_, rfl, rfl, ?_, ?_, ?_, ?_, ?_⟩
    · simp [getArgparseParameters, hret, hd, defaultsTruthy, defaultsGet]
    all_goals simp [createFromTypingAnn, hk]
  | some d =>
    refine ⟨{ name := n, flags := ["--" ++ hyphenate n],
              kwargs := { deriveParamsFromTypeAnn pt none with
                          help := some d } }, ?_, rfl, rfl, ?_, ?_, ?_, ?_, ?_⟩
    · simp [getArgparseParameters, hret, hd, defaultsTruthy, defaultsGet,
            createFromTypingAnn]
    all_goals simp [hk]

/-- Witness for the amended C3 at the bare unannotated parameter `x`. -/
theorem c3_untyped_param_maps_to_str_witness :
    ("x" == "return") = false ∧
    containsSub "x" "Union" = false ∧
    ∃ ap, getArgparseParameters [("x", "x")] [] none = [ap] ∧
      ap.name = "x" ∧ ap.flags = ["--" ++ hyphenate "x"] ∧
      ap.kwargs.required = true ∧ ap.kwargs.action = none ∧
      ap.kwargs.default = none ∧ ap.kwargs.nargs = none ∧
      ap.kwargs.type = some "str" :=
  ⟨rfl, by decide,
   c3_untyped_param_maps_to_str "x" "x" [] rfl (by decide) (by decide)
     (by decide) (by decide) (by decide) (by decide)⟩

/-- C8 counterexample: an externally supplied but falsy default (here `0` for
an int parameter) is ignored — the guard on line 101 tests the truthiness of
`defaults.get(param_name)`, so the resulting flag keeps `required = true` and
carries no default, where the claim demanded `required = false` with the
default attached. -/
theorem c8_counterexample :
    (getArgparseParameters [("x", "<class 'int'>")] []
        (some [("x", Value.vInt 0)])).map
      (fun ap => (ap.kwargs.required, ap.kwargs.default)) = [(true, none)] ∧
    [((true : Bool), (none : Option Value))] ≠ [(false, some (Value.vInt 0))] := by
  exact ⟨rfl, by decide⟩

/-- A truthy value is not the empty string, so the kwargs comprehension
keeps it as a default. -/
theorem dropEmptyDefault_of_truthy (v : Value) (hv : v.truthy = true) :
    dropEmptyDefault (some v) = some v := by
  have hne : v ≠ Value.vStr "" := by
    intro h
    subst h
    simp [Value.truthy] at hv
  simp [dropEmptyDefault, hne]

/-- A truthy default forces `required = false` and is carried into the
derived kwargs. -/
theorem deriveParams_truthy_default (pt : String) (v : Value)
    (hv : v.truthy = true) :
    (deriveParamsFromTypeAnn pt (some v)).required = false ∧
    (deriveParamsFromTypeAnn pt (some v)).default = some v := by
  have h1 : truthyOpt (some v) = true := hv
  refine ⟨?_, ?_⟩
  · simp [deriveParamsFromTypeAnn, h1]
  · simp [deriveParamsFromTypeAnn, dropEmptyDefault_of_truthy v hv]

/-
Dictionary lemmas for the operation-map characterization (C2).
-/

/-- Keys of a dictionary after an assignment: the old keys, plus the new key
if it was absent. -/
theorem mem_dictAssign_keys {β : Type} (d : List (String × β)) (k x : String)
    (v : β) :
    x ∈ (dictAssign d k v).map Prod.fst ↔ x ∈ d.map Prod.fst ∨ x = k := by
  induction d with
  | nil => simp [dictAssign]
  | cons p rest ih =>
    obtain ⟨k0, v0⟩ := p
    by_cases h : k0 = k
    · subst h
      simp [dictAssign]
      tauto
    · simp [dictAssign, h, ih]
      tauto

/-- Assignment preserves the unique-keys invariant of a dictionary. -/
theorem keysNodup_dictAssign {β : Type} (d : List (String × β)) (k : String)
    (v : β) (h : (d.map Prod.fst).Nodup) :
    ((dictAssign d k v).map Prod.fst).Nodup := by
  induction d with
  | nil => simp [dictAssign]
  | cons p rest ih =>
    obtain ⟨k0, v0⟩ := p
    simp only [List.map_cons, List.nodup_cons] at h
    by_cases hk : k0 = k
    · subst hk
      simpa [dictAssign] using h
    · simp only [dictAssign, beq_iff_eq, hk, if_false, List.map_cons,
                 List.nodup_cons]
      refine ⟨?_, ih h.2⟩
      rw [mem_dictAssign_keys]
      rintro (hm | he)
      · exact h.1 hm
      · exact hk he

/-- A key absent from a dictionary filters to nothing. -/
theorem filter_key_eq_nil {β : Type} (d : List (String × β)) (k : String)
    (h : k ∉ d.map Prod.fst) : d.filter (fun p => p.1 == k) = [] := by
  induction d with
  | nil => rfl
  | cons p rest ih =>
    simp only [List.map_cons, List.mem_cons] at h
    push_neg at h
    rw [List.filter_cons]
    have hne : (p.1 == k) = false := by
      simp
      exact fun he => h.1 he.symm
    simp [hne, ih h.2]

/-- Looking up the assigned key of a unique-keyed dictionary returns the
assigned value. -/
theorem dictGet_dictAssign_self {β : Type} (d : List (String × β))
    (k : String) (v : β) (h : (d.map Prod.fst).Nodup) :
    dictGet (dictAssign d k v) k = some v := by
  induction d with
  | nil => simp [dictAssign, dictGet, List.filter_cons]
  | cons p rest ih =>
    obtain ⟨k0, v0⟩ := p
    simp only [List.map_cons, List.nodup_cons] at h
    by_cases hk : k0 = k
    · subst hk
      have hfil : rest.filter (fun p => p.1 == k0) = [] :=
        filter_key_eq_nil rest k0 h.1
      simp [dictAssign, dictGet, List.filter_cons, hfil]
    · have hb : (k0 == k) = false := by simp [hk]
      simp only [dictAssign, hb, Bool.false_eq_true, if_false]
      have hstep : dictGet ((k0, v0) :: dictAssign rest k v) k =
          dictGet (dictAssign rest k v) k := by
        simp [dictGet, List.filter_cons, hb]
      rw [hstep]
      exact ih h.2

/-- Assigning one key leaves the filtered bindings of every other key
untouched. -/
theorem filter_dictAssign_ne {β : Type} (d : List (String × β))
    (k : String) (v : β) (k' : String) (h : k' ≠ k) :
    (dictAssign d k v).filter (fun p => p.1 == k') =
      d.filter (fun p => p.1 == k') := by
  induction d with
  | nil =>
    have hb : (k == k') = false := by simp [Ne.symm h]
    simp [dictAssign, List.filter_cons, hb]
  | cons p rest ih =>
    obtain ⟨k0, v0⟩ := p
    by_cases hk : k0 = k
    · subst hk
      have hb : (k0 == k') = false := by simp [Ne.symm h]
      simp [dictAssign, List.filter_cons, hb]
    · have hb : (k0 == k) = false := by simp [hk]
      simp only [dictAssign, hb, Bool.false_eq_true, if_false]
      by_cases hk' : k0 = k' <;> simp [List.filter_cons, hk', ih]

/-- Looking up any other key after an assignment is the original lookup. -/
theorem dictGet_dictAssign_ne {β : Type} (d : List (String × β))
    (k : String) (v : β) (k' : String) (h : k' ≠ k) :
    dictGet (dictAssign d k v) k' = dictGet d k' := by
  unfold dictGet
  rw [filter_dictAssign_ne d k v k' h]

/-- The walk over one class keeps the unique-keys invariant of the operation
map. -/
theorem membersLoop_keysNodup (defaults : Option (List (String × Value))) :
    ∀ (ms : List ClassMember) (acc : List (String × List ArgparseParametersL)),
      (acc.map Prod.fst).Nodup →
      ((membersLoop defaults ms acc).map Prod.fst).Nodup := by
  intro ms
  induction ms with
  | nil => intro acc hacc; simpa [membersLoop] using hacc
  | cons m rest ih =>
    intro acc hacc
    cases m with
    | none => simpa [membersLoop] using ih acc hacc
    | some fd =>
      by_cases hinit : fd.name = "__init__"
      · simpa [membersLoop, hinit] using ih acc hacc
      · have hne : (fd.name == "__init__") = false := by simp [hinit]
        simp only [membersLoop, hne, Bool.false_eq_true, if_false]
        exact ih _ (keysNodup_dictAssign acc fd.name _ hacc)

/-- Lookup after the walk over one class: the last definition of the name in
that class wins, and a name the class never defines falls back to the
incoming map. -/
theorem membersLoop_dictGet (defaults : Option (List (String × Value)))
    (k : String) :
    ∀ (ms : List ClassMember) (acc : List (String × List ArgparseParametersL)),
      (acc.map Prod.fst).Nodup →
      dictGet (membersLoop defaults ms acc) k =
        match (((ms.filterMap id).filter (fun fd => fd.name != "__init__")).filter
            (fun fd => fd.name == k)).getLast? with
        | some fd => some (getArgparseParameters fd.anns fd.docParams defaults)
        | none => dictGet acc k := by
  intro ms
  induction ms with
  | nil => intro acc _; simp [membersLoop]
  | cons m rest ih =>
    intro acc hacc
    cases m with
    | none => simpa [membersLoop] using ih acc hacc
    | some fd =>
      by_cases hinit : fd.name = "__init__"
      · simpa [membersLoop, hinit] using ih acc hacc
      · have hne : (fd.name == "__init__") = false := by simp [hinit]
        have hp1 : (fd.name != "__init__") = true := by
          simp [bne_iff_ne]
          exact hinit
        have hfm : ((some fd : ClassMember) :: rest).filterMap id =
            fd :: rest.filterMap id := rfl
        simp only [membersLoop, hne, Bool.false_eq_true, if_false]
        rw [ih (dictAssign acc fd.name
              (getArgparseParameters fd.anns fd.docParams defaults))
            (keysNodup_dictAssign acc fd.name _ hacc)]
        rw [hfm, List.filter_cons, if_pos hp1, List.filter_cons]
        by_cases hk : fd.name = k
        · rw [if_pos (show (fd.name == k) = true by simp [hk])]
          cases hrest : ((rest.filterMap id).filter
              (fun fd => fd.name != "__init__")).filter
              (fun fd => fd.name == k) with
          | nil =>
            show dictGet (dictAssign acc fd.name _) k = _
            rw [hk]
            exact dictGet_dictAssign_self acc k _ hacc
          | cons x xs =>
            rw [List.getLast?_cons_cons]
            cases hxl : (x :: xs).getLast? with
            | none =>
              have hs : (x :: xs).getLast?.isSome := by
                rw [List.getLast?_isSome]
                simp
              rw [hxl] at hs
              simp at hs
            | some y => simp only [hxl]
        · rw [if_neg (show ¬ ((fd.name == k) = true) by simp [hk])]
          cases hrest : ((rest.filterMap id).filter
              (fun fd => fd.name != "__init__")).filter
              (fun fd => fd.name == k) with
          | nil =>
            exact dictGet_dictAssign_ne acc fd.name _ k (fun h => hk h.symm)
          | cons x xs =>
            cases hxl : (x :: xs).getLast? with
            | none =>
              have hs : (x :: xs).getLast?.isSome := by
                rw [List.getLast?_isSome]
                simp
              rw [hxl] at hs
              simp at hs
            | some y => simp only [hxl]

/-- Lookup after the full inheritance walk: the last definition of the name
in walk order wins, and an undefined name falls back to the incoming map. -/
theorem mroLoop_dictGet (defaults : Option (List (String × Value)))
    (k : String) :
    ∀ (mro : List PyClass) (acc : List (String × List ArgparseParametersL)),
      (acc.map Prod.fst).Nodup →
      dictGet (mroLoop defaults mro acc) k =
        match ((walkDefs mro).filter (fun fd => fd.name == k)).getLast? with
        | some fd => some (getArgparseParameters fd.anns fd.docParams defaults)
        | none => dictGet acc k := by
  intro mro
  induction mro with
  | nil => intro acc _; simp [mroLoop, walkDefs]
  | cons c rest ih =>
    intro acc hacc
    simp only [mroLoop]
    rw [ih (membersLoop defaults c.members acc)
        (membersLoop_keysNodup defaults c.members acc hacc)]
    have hsplit : (walkDefs (c :: rest)).filter (fun fd => fd.name == k) =
        ((c.members.filterMap id).filter
            (fun fd => fd.name != "__init__")).filter (fun fd => fd.name == k) ++
        (walkDefs rest).filter (fun fd => fd.name == k) := by
      simp [walkDefs, List.filterMap_append, List.filter_append]
    rw [hsplit]
    cases hrest : (walkDefs rest).filter (fun fd => fd.name == k) with
    | nil =>
      simp only [List.append_nil]
      exact membersLoop_dictGet defaults k c.members acc hacc
    | cons x xs =>
      rw [List.getLast?_append_of_ne_nil _ (by simp)]
      cases hxl : (x :: xs).getLast? with
      | none =>
        have hs : (x :: xs).getLast?.isSome := by
          rw [List.getLast?_isSome]
          simp
        rw [hxl] at hs
        simp at hs
      | some y => simp only [hxl]

/-- C2 counterexample: a two-level chain where the derived class defines
`op(x: int)` and the base class defines `op(y: str)` ends the walk with the
base class's parameters in the operation map — the assignment on line 140
overwrites unconditionally, so the least-derived definition, not the
most-derived one, is recorded. -/
theorem c2_counterexample :
    mroLoop none
        [⟨[some ⟨"op", [("x", "<class 'int'>")], []⟩]⟩,
         ⟨[some ⟨"op", [("y", "<class 'str'>")], []⟩]⟩] [] =
      [("op", getArgparseParameters [("y", "<class 'str'>")] [] none)] ∧
    getArgparseParameters [("y", "<class 'str'>")] [] none ≠
      getArgparseParameters [("x", "<class 'int'>")] [] none := by
  exact ⟨rfl, by decide⟩

/-- C2 (amended): walking the inheritance chain from most specific to least
specific, each definition is assigned into the operation map unconditionally,
so the LAST definition seen per operation name wins — the map records the
least-derived (base) definition when a name is defined at more than one
level, the opposite of override semantics. -/
theorem c2_last_definition_wins (mro : List PyClass)
    (defaults : Option (List (String × Value))) (k : String) :
    dictGet (mroLoop defaults mro []) k =
      (((walkDefs mro).filter (fun fd => fd.name == k)).getLast?).map
        (fun fd => getArgparseParameters fd.anns fd.docParams defaults) := by
  rw [mroLoop_dictGet defaults k mro [] (by simp)]
  cases hl : ((walkDefs mro).filter (fun fd => fd.name == k)).getLast? with
  | none => simp [dictGet]
  | some fd => simp

/-
Parser assembly lemmas (C4, C5).
-/

/-- A successful `add_argument` preserves every flag already present. -/
theorem parserHasFlag_addArgument_mono (p : ParserL) (a : ArgparseParametersL)
    (q : ParserL) (hadd : p.addArgument a = Except.ok q) (f : String)
    (hf : parserHasFlag p f = true) : parserHasFlag q f = true := by
  unfold ParserL.addArgument at hadd
  split at hadd
  · exact absurd hadd (by simp)
  · cases hadd
    unfold parserHasFlag at hf ⊢
    simp only [List.any_append]
    simp at hf ⊢
    exact Or.inl hf

/-- A successful `add_argument` never touches the positional argument. -/
theorem addArgument_positional (p : ParserL) (a : ArgparseParametersL)
    (q : ParserL) (hadd : p.addArgument a = Except.ok q) :
    q.positional = p.positional := by
  unfold ParserL.addArgument at hadd
  split at hadd
  · exact absurd hadd (by simp)
  · cases hadd
    rfl

/-- Folding `add_argument` over a list without an exception handler never
touches the positional argument. -/
theorem addAll_positional :
    ∀ (l : List ArgparseParametersL) (p q : ParserL),
      addAll p l = Except.ok q → q.positional = p.positional := by
  intro l
  induction l with
  | nil =>
    intro p q h
    unfold addAll at h
    cases h
    rfl
  | cons a rest ih =>
    intro p q h
    unfold addAll at h
    cases hadd : p.addArgument a with
    | error e => rw [hadd] at h; exact absurd h (by simp)
    | ok p1 =>
      rw [hadd] at h
      rw [ih p1 q h, addArgument_positional p a p1 hadd]

/-- Folding `add_argument` with no exception handler over a list holding a
flag the parser already defines (or that an earlier list entry defines)
aborts with an error. -/
theorem addAll_error_of_hasFlag :
    ∀ (l : List ArgparseParametersL) (p : ParserL),
      (∃ a ∈ l, ∃ f ∈ a.flags, parserHasFlag p f = true) →
      ∃ e, addAll p l = Except.error e := by
  intro l
  induction l with
  | nil =>
    intro p h
    obtain ⟨a, ha, _⟩ := h
    exact absurd ha (by simp)
  | cons a rest ih =>
    intro p h
    cases hadd : p.addArgument a with
    | error e => exact ⟨e, by simp [addAll, hadd]⟩
    | ok p1 =>
      obtain ⟨a', ha', f, hf, hpf⟩ := h
      rcases List.mem_cons.mp ha' with rfl | hmem
      · exfalso
        have hany : a'.flags.any (fun f => parserHasFlag p f) = true :=
          List.any_eq_true.mpr ⟨f, hf, hpf⟩
        unfold ParserL.addArgument at hadd
        rw [if_pos hany] at hadd
        exact absurd hadd (by simp)
      · obtain ⟨e, he⟩ := ih p1
          ⟨a', hmem, f, hf, parserHasFlag_addArgument_mono p a p1 hadd f hpf⟩
        exact ⟨e, by simp [addAll, hadd, he]⟩

/-- C5 counterexample: a base parameter and an entry-operation parameter
deriving the same `--name` flag make `SingleResponsibilityInterface.get_parser`
raise the `ArgumentError` — there is no exception handler on lines 288-292,
so no grammar is produced; the silent skip exists only in
`FilebeatTargetsInterface.build_parser`, whose loop keeps the earlier flag. -/
theorem c5_counterexample :
    sriGetParser [createFromTypingAnn "name" "<class 'str'>" none]
        [createFromTypingAnn "name" "<class 'str'>" none] =
      Except.error PyErr.argumentErr ∧
    addAllSkip emptyParser
        [createFromTypingAnn "name" "<class 'str'>" none,
         createFromTypingAnn "name" "<class 'str'>" none] =
      { optArgs := [{ flags := ["--name"],
                      kwargs := { required := true, action := none,
                                  default := none, nargs := none,
                                  type := some "str", help := none } }],
        positional := none } := by
  exact ⟨rfl, rfl⟩

/-- C5 (amended): when a base (constructor) parameter and an entry-operation
parameter derive the same flag, `SingleResponsibilityInterface.get_parser`
does NOT skip the collision: the `ArgumentError` propagates and no grammar is
produced. The silent first-wins skip exists only in
`FilebeatTargetsInterface.build_parser`, whose `try/except/continue` loop
drops the later colliding argument and keeps the earlier one. -/
theorem c5_collision_raises (base op : List ArgparseParametersL)
    (p0 : ParserL) (hbase : addAll emptyParser base = Except.ok p0)
    (hcol : ∃ a ∈ op, ∃ f ∈ a.flags, parserHasFlag p0 f = true) :
    (∃ e, sriGetParser base op = Except.error e) ∧
    ∀ (q : ParserL) (a : ArgparseParametersL)
      (rest : List ArgparseParametersL),
      (∃ f ∈ a.flags, parserHasFlag q f = true) →
      addAllSkip q (a :: rest) = addAllSkip q rest := by
  constructor
  · obtain ⟨e, he⟩ := addAll_error_of_hasFlag op p0 hcol
    refine ⟨e, ?_⟩
    unfold sriGetParser
    rw [hbase]
    exact he
  · intro q a rest hqf
    obtain ⟨f, hf, hflag⟩ := hqf
    have hany : a.flags.any (fun f => parserHasFlag q f) = true :=
      List.any_eq_true.mpr ⟨f, hf, hflag⟩
    have he : q.addArgument a = Except.error PyErr.argumentErr := by
      unfold ParserL.addArgument
      rw [if_pos hany]
    conv_lhs => rw [addAllSkip]
    rw [he]

/-- Witness for the amended C5 at the concrete `--name` collision. -/
theorem c5_collision_raises_witness :
    addAll emptyParser [createFromTypingAnn "name" "<class 'str'>" none] =
      Except.ok
        { optArgs := [{ flags := ["--name"],
                        kwargs := { required := true, action := none,
                                    default := none, nargs := none,
                                    type := some "str", help := none } }],
          positional := none } ∧
    (∃ a ∈ [createFromTypingAnn "name" "<class 'str'>" none],
      ∃ f ∈ a.flags, parserHasFlag
        { optArgs := [{ flags := ["--name"],
                        kwargs := { required := true, action := none,
                                    default := none, nargs := none,
                                    type := some "str", help := none } }],
          positional := none } f = true) ∧
    ∃ e, sriGetParser [createFromTypingAnn "name" "<class 'str'>" none]
        [createFromTypingAnn "name" "<class 'str'>" none] =
      Except.error e :=
  ⟨rfl, by decide,
   (c5_collision_raises [createFromTypingAnn "name" "<class 'str'>" none]
     [createFromTypingAnn "name" "<class 'str'>" none] _ rfl (by decide)).1⟩

/-- The methods loop of `MultipleResponsibilityInterface.get_parser`
accumulates exactly the zero-parameter whitelisted action tokens, in
operation-map order, and never touches the positional argument. -/
theorem mriMethodsLoop_spec (supported : List String) :
    ∀ (methods : List (String × List ArgparseParametersL)) (p : ParserL)
      (actions : List String) (p1 : ParserL) (acts : List String),
      mriMethodsLoop p methods supported actions = Except.ok (p1, acts) →
      acts = actions ++ zeroParamActions methods supported ∧
      p1.positional = p.positional := by
  intro methods
  induction methods with
  | nil =>
    intro p actions p1 acts h
    unfold mriMethodsLoop at h
    cases h
    simp [zeroParamActions]
  | cons mg rest ih =>
    obtain ⟨m, group⟩ := mg
    intro p actions p1 acts h
    unfold mriMethodsLoop at h
    by_cases hm : supported.contains m = true
    · rw [if_pos hm] at h
      have hm' : m ∈ supported := by simpa using hm
      by_cases hg : group.isEmpty = true
      · rw [if_pos hg] at h
        have hg' : group = [] := by simpa using hg
        obtain ⟨h1, h2⟩ := ih p (actions ++ [hyphenate m]) p1 acts h
        refine ⟨?_, h2⟩
        rw [h1]
        have hz : zeroParamActions ((m, group) :: rest) supported =
            hyphenate m :: zeroParamActions rest supported := by
          simp [zeroParamActions, List.filter_cons, hm', hg']
        rw [hz, List.append_assoc]
        rfl
      · rw [if_neg hg] at h
        have hg' : ¬ (group = []) := by simpa using hg
        cases haa : addAll p group with
        | error e =>
          rw [haa] at h
          exact absurd h (by simp)
        | ok p2 =>
          rw [haa] at h
          obtain ⟨h1, h2⟩ := ih p2 actions p1 acts h
          have hz : zeroParamActions ((m, group) :: rest) supported =
              zeroParamActions rest supported := by
            simp [zeroParamActions, List.filter_cons, hm', hg']
          exact ⟨by rw [h1, hz], by rw [h2, addAll_positional group p p2 haa]⟩
    · rw [if_neg hm] at h
      have hm' : m ∉ supported := by simpa using hm
      obtain ⟨h1, h2⟩ := ih p actions p1 acts h
      have hz : zeroParamActions ((m, group) :: rest) supported =
          zeroParamActions rest supported := by
        simp [zeroParamActions, List.filter_cons, hm']
      exact ⟨by rw [h1, hz], h2⟩

/-- C4 counterexample: whitelisting `["start", "stop"]` over an operation map
that records `stop` before `start` yields action choices `["stop", "start"]`
— operation-map order, not whitelist order. -/
theorem c4_counterexample :
    mriGetParser [] [("stop", []), ("start", [])] ["start", "stop"] =
      Except.ok { optArgs := [],
                  positional := some ("action", ["stop", "start"]) } ∧
    ["stop", "start"] ≠ ["start", "stop"] := by
  exact ⟨rfl, by decide⟩

/-- C4 (amended): in every successfully assembled multiple-responsibility
grammar, the positional action argument is present exactly when at least one
whitelisted operation has zero parameters; its allowed values are exactly the
zero-parameter whitelisted operation names (hyphenated) in OPERATION-MAP
order (the order the operations were extracted), not whitelist order; and
parsing an action token outside that set is rejected with a usage error
before the target type is instantiated. -/
theorem c4_action_choices (base : List ArgparseParametersL)
    (methods : List (String × List ArgparseParametersL))
    (supported : List String) (p : ParserL)
    (hok : mriGetParser base methods supported = Except.ok p) :
    (p.positional =
       if (zeroParamActions methods supported).isEmpty then none
       else some ("action", zeroParamActions methods supported)) ∧
    ∀ token, (zeroParamActions methods supported).contains token = false →
      mriParseThenDispatch p token = Except.error UsageErr.usage := by
  cases h0 : addAll emptyParser base with
  | error e =>
    unfold mriGetParser at hok
    rw [h0] at hok
    exact absurd hok (by simp)
  | ok p0 =>
    have hstep : mriGetParser base methods supported =
        match mriMethodsLoop p0 methods supported [] with
        | .error e => .error e
        | .ok (p1, actions) =>
          if actions.isEmpty then Except.ok p1
          else Except.ok { p1 with positional := some ("action", actions) } := by
      unfold mriGetParser
      rw [h0]
    rw [hstep] at hok
    cases h1 : mriMethodsLoop p0 methods supported [] with
    | error e =>
      rw [h1] at hok
      exact absurd hok (by simp)
    | ok pa =>
      obtain ⟨p1, actions⟩ := pa
      have hok2 : (if actions.isEmpty then (Except.ok p1 : Except PyErr ParserL)
          else Except.ok { p1 with
                           positional := some ("action", actions) }) =
          Except.ok p := by
        rw [← hok, h1]
      obtain ⟨hacts, hpos⟩ :=
        mriMethodsLoop_spec supported methods p0 [] p1 actions h1
      simp only [List.nil_append] at hacts
      have hp0 : p0.positional = none := by
        rw [addAll_positional base emptyParser p0 h0]
        rfl
      by_cases hie : actions.isEmpty = true
      · rw [if_pos hie] at hok2
        cases hok2
        constructor
        · rw [← hacts, if_pos hie, hpos, hp0]
        · intro token _
          have hnone : p.positional = none := by rw [hpos, hp0]
          unfold mriParseThenDispatch checkActionToken
          rw [hnone]
      · rw [if_neg hie] at hok2
        cases hok2
        constructor
        · rw [← hacts, if_neg hie]
        · intro token htok
          rw [← hacts] at htok
          unfold mriParseThenDispatch checkActionToken
          simp only []
          rw [if_neg (by rw [htok]; exact Bool.false_ne_true)]

/-- Witness for the amended C4 at the two-operation whitelist example. -/
theorem c4_action_choices_witness :
    mriGetParser [] [("stop", []), ("start", [])] ["start", "stop"] =
      Except.ok ({ optArgs := [],
                   positional := some ("action", ["stop", "start"]) } : ParserL) ∧
    (({ optArgs := [],
        positional := some ("action", ["stop", "start"]) } : ParserL).positional =
       if (zeroParamActions [("stop", []), ("start", [])]
           ["start", "stop"]).isEmpty then none
       else some ("action",
         zeroParamActions [("stop", []), ("start", [])] ["start", "stop"])) ∧
    ∀ token,
      (zeroParamActions [("stop", []), ("start", [])]
          ["start", "stop"]).contains token = false →
      mriParseThenDispatch
          { optArgs := [], positional := some ("action", ["stop", "start"]) }
          token =
        Except.error UsageErr.usage :=
  ⟨rfl, (c4_action_choices [] [("stop", []), ("start", [])] ["start", "stop"]
     _ rfl).1,
   (c4_action_choices [] [("stop", []), ("start", [])] ["start", "stop"]
     _ rfl).2⟩

/-
Config-object mutation lemmas (C6).
-/

/-- Reading back the attribute just set returns the new value. -/
theorem getattrOpt_setattrVar_self (vars : List (String × Value)) (k : String)
    (v : Value) : getattrOpt (setattrVar vars k v) k = some v := by
  induction vars with
  | nil => simp [setattrVar, dictAssign, getattrOpt]
  | cons p rest ih =>
    obtain ⟨k0, v0⟩ := p
    by_cases hk : k0 = k
    · subst hk
      simp [setattrVar, dictAssign, getattrOpt]
    · simp only [setattrVar, dictAssign, beq_iff_eq, hk, if_false]
      simpa [getattrOpt, List.find?_cons, hk] using ih

/-- Setting one attribute leaves every other attribute unchanged. -/
theorem getattrOpt_setattrVar_ne (vars : List (String × Value)) (k : String)
    (v : Value) (n : String) (h : n ≠ k) :
    getattrOpt (setattrVar vars k v) n = getattrOpt vars n := by
  induction vars with
  | nil => simp [setattrVar, dictAssign, getattrOpt, List.find?_cons, Ne.symm h]
  | cons p rest ih =>
    obtain ⟨k0, v0⟩ := p
    by_cases hk : k0 = k
    · subst hk
      simp [setattrVar, dictAssign, getattrOpt, List.find?_cons, Ne.symm h]
    · simp only [setattrVar, dictAssign, beq_iff_eq, hk, if_false]
      by_cases hn : k0 = n
      · subst hn
        simp [getattrOpt, List.find?_cons]
      · simp only [getattrOpt, List.find?_cons] at ih ⊢
        have hb : (k0 == n) = false := by simp [hn]
        simp only [hb]
        exact ih

/-- The read-only cell only looks at the attribute of the queried name, so
setting a different attribute does not change it. -/
theorem ftCell_setattr_ne (cfg : TargetConfig) (k : String) (v : Value)
    (n : String) (h : n ≠ k) :
    ftCell { cfg with vars := setattrVar cfg.vars k v } n = ftCell cfg n := by
  unfold ftCell
  rw [getattrOpt_setattrVar_ne cfg.vars k v n h]

/-- One unfolding step of the field loop. -/
theorem ftLoop_cons (reserved defaults : List String) (cfg : TargetConfig)
    (option : String) (value : Value) (rest : List (String × Value)) :
    ftLoop reserved defaults cfg ((option, value) :: rest) =
      if (option == "enable" || option == "disable") = true then
        ftLoop reserved defaults cfg rest
      else if defaults.contains option = true then
        ftLoop reserved defaults cfg rest
      else if reserved.contains option = true then
        ftLoop reserved defaults cfg rest
      else if (!value.truthy) = true then
        ((ftLoop reserved defaults cfg rest).1,
         (ftLoop reserved defaults cfg rest).2.1,
         ftCell cfg option :: (ftLoop reserved defaults cfg rest).2.2)
      else
        ((ftLoop reserved defaults
            { cfg with vars := setattrVar cfg.vars option value } rest).1,
         (hyphenate option, value) ::
           (ftLoop reserved defaults
             { cfg with vars := setattrVar cfg.vars option value } rest).2.1,
         (ftLoop reserved defaults
           { cfg with vars := setattrVar cfg.vars option value } rest).2.2) :=
  rfl

/-- The final config of the field loop leaves every attribute not named by
the processed fields unchanged. -/
theorem ftLoop_vars_preserve (reserved defaults : List String) :
    ∀ (fields : List (String × Value)) (cfg : TargetConfig) (n : String),
      n ∉ fields.map Prod.fst →
      getattrOpt (ftLoop reserved defaults cfg fields).1.vars n =
        getattrOpt cfg.vars n := by
  intro fields
  induction fields with
  | nil => intro cfg n _; rfl
  | cons p rest ih =>
    obtain ⟨option, value⟩ := p
    intro cfg n hn
    simp only [List.map_cons, List.mem_cons] at hn
    push_neg at hn
    rw [ftLoop_cons]
    by_cases hc1 : (option == "enable" || option == "disable") = true
    · rw [if_pos hc1]; exact ih cfg n hn.2
    · rw [if_neg hc1]
      by_cases hc2 : defaults.contains option = true
      · rw [if_pos hc2]; exact ih cfg n hn.2
      · rw [if_neg hc2]
        by_cases hc3 : reserved.contains option = true
        · rw [if_pos hc3]; exact ih cfg n hn.2
        · rw [if_neg hc3]
          by_cases hc4 : (!value.truthy) = true
          · rw [if_pos hc4]; exact ih cfg n hn.2
          · rw [if_neg hc4]
            rw [ih { cfg with vars := setattrVar cfg.vars option value } n hn.2]
            exact getattrOpt_setattrVar_ne cfg.vars option value n hn.1

/-- Every ChangeSet row of the field loop comes from a truthy field, with
its hyphenated name and its value. -/
theorem ftLoop_chg_mem (reserved defaults : List String) :
    ∀ (fields : List (String × Value)) (cfg : TargetConfig)
      (r : String × Value),
      r ∈ (ftLoop reserved defaults cfg fields).2.1 →
      ∃ m val, (m, val) ∈ fields ∧ r = (hyphenate m, val) ∧
        val.truthy = true := by
  intro fields
  induction fields with
  | nil =>
    intro cfg r hr
    exact absurd hr (by simp [ftLoop])
  | cons p rest ih =>
    obtain ⟨option, value⟩ := p
    intro cfg r hr
    rw [ftLoop_cons] at hr
    by_cases hc1 : (option == "enable" || option == "disable") = true
    · rw [if_pos hc1] at hr
      obtain ⟨m, val, hmem, hre, htr⟩ := ih cfg r hr
      exact ⟨m, val, List.mem_cons_of_mem _ hmem, hre, htr⟩
    · rw [if_neg hc1] at hr
      by_cases hc2 : defaults.contains option = true
      · rw [if_pos hc2] at hr
        obtain ⟨m, val, hmem, hre, htr⟩ := ih cfg r hr
        exact ⟨m, val, List.mem_cons_of_mem _ hmem, hre, htr⟩
      · rw [if_neg hc2] at hr
        by_cases hc3 : reserved.contains option = true
        · rw [if_pos hc3] at hr
          obtain ⟨m, val, hmem, hre, htr⟩ := ih cfg r hr
          exact ⟨m, val, List.mem_cons_of_mem _ hmem, hre, htr⟩
        · rw [if_neg hc3] at hr
          by_cases hc4 : (!value.truthy) = true
          · rw [if_pos hc4] at hr
            obtain ⟨m, val, hmem, hre, htr⟩ := ih cfg r hr
            exact ⟨m, val, List.mem_cons_of_mem _ hmem, hre, htr⟩
          · rw [if_neg hc4] at hr
            rcases List.mem_cons.mp hr with hri | hrr
            · refine ⟨option, value, List.mem_cons_self _ _, hri, ?_⟩
              simpa using hc4
            · obtain ⟨m, val, hmem, hre, htr⟩ :=
                ih { cfg with vars := setattrVar cfg.vars option value } r hrr
              exact ⟨m, val, List.mem_cons_of_mem _ hmem, hre, htr⟩

/-- An eligible truthy field ends the loop assigned onto the config object
and recorded in the ChangeSet. -/
theorem ftLoop_truthy (reserved defaults : List String) :
    ∀ (fields : List (String × Value)) (cfg : TargetConfig) (n : String)
      (v : Value),
      (fields.map Prod.fst).Nodup →
      (n, v) ∈ fields →
      (n == "enable") = false → (n == "disable") = false →
      defaults.contains n = false → reserved.contains n = false →
      v.truthy = true →
      getattrOpt (ftLoop reserved defaults cfg fields).1.vars n = some v ∧
      (hyphenate n, v) ∈ (ftLoop reserved defaults cfg fields).2.1 := by
  intro fields
  induction fields with
  | nil =>
    intro cfg n v _ hmem
    exact absurd hmem (by simp)
  | cons p rest ih =>
    obtain ⟨option, value⟩ := p
    intro cfg n v hnd hmem h1 h2 h3 h4 htr
    simp only [List.map_cons, List.nodup_cons] at hnd
    rcases List.mem_cons.mp hmem with heq | hmemr
    · rw [Prod.mk.injEq] at heq
      obtain ⟨h5, h6⟩ := heq
      subst h5
      subst h6
      rw [ftLoop_cons]
      rw [if_neg (show ¬ ((n == "enable" || n == "disable") = true) by
        rw [h1, h2]; simp)]
      rw [if_neg (show ¬ (defaults.contains n = true) by rw [h3]; simp)]
      rw [if_neg (show ¬ (reserved.contains n = true) by rw [h4]; simp)]
      rw [if_neg (show ¬ ((!v.truthy) = true) by rw [htr]; simp)]
      constructor
      · show getattrOpt (ftLoop reserved defaults
          { cfg with vars := setattrVar cfg.vars n v } rest).1.vars n = some v
        rw [ftLoop_vars_preserve reserved defaults rest
          { cfg with vars := setattrVar cfg.vars n v } n hnd.1]
        exact getattrOpt_setattrVar_self cfg.vars n v
      · exact List.mem_cons_self _ _
    · rw [ftLoop_cons]
      by_cases hc1 : (option == "enable" || option == "disable") = true
      · rw [if_pos hc1]
        exact ih cfg n v hnd.2 hmemr h1 h2 h3 h4 htr
      · rw [if_neg hc1]
        by_cases hc2 : defaults.contains option = true
        · rw [if_pos hc2]
          exact ih cfg n v hnd.2 hmemr h1 h2 h3 h4 htr
        · rw [if_neg hc2]
          by_cases hc3 : reserved.contains option = true
          · rw [if_pos hc3]
            exact ih cfg n v hnd.2 hmemr h1 h2 h3 h4 htr
          · rw [if_neg hc3]
            by_cases hc4 : (!value.truthy) = true
            · rw [if_pos hc4]
              refine ⟨?_, ?_⟩
              · show getattrOpt
                  (ftLoop reserved defaults cfg rest).1.vars n = some v
                exact (ih cfg n v hnd.2 hmemr h1 h2 h3 h4 htr).1
              · show (hyphenate n, v) ∈
                  (ftLoop reserved defaults cfg rest).2.1
                exact (ih cfg n v hnd.2 hmemr h1 h2 h3 h4 htr).2
            · rw [if_neg hc4]
              refine ⟨?_, ?_⟩
              · show getattrOpt (ftLoop reserved defaults
                  { cfg with vars := setattrVar cfg.vars option value }
                  rest).1.vars n = some v
                exact (ih _ n v hnd.2 hmemr h1 h2 h3 h4 htr).1
              · show (hyphenate n, v) ∈ (hyphenate option, value) ::
                  (ftLoop reserved defaults
                    { cfg with vars := setattrVar cfg.vars option value }
                    rest).2.1
                exact List.mem_cons_of_mem _
                  (ih _ n v hnd.2 hmemr h1 h2 h3 h4 htr).2

/-- An eligible falsy field ends the loop in the read-only table, showing
its current value or N/A relative to the incoming config object, and never
appears in the ChangeSet. -/
theorem ftLoop_falsy (reserved defaults : List String) :
    ∀ (fields : List (String × Value)) (cfg : TargetConfig) (n : String)
      (v : Value),
      (fields.map (fun p => hyphenate p.1)).Nodup →
      (n, v) ∈ fields →
      (n == "enable") = false → (n == "disable") = false →
      defaults.contains n = false → reserved.contains n = false →
      v.truthy = false →
      ftCell cfg n ∈ (ftLoop reserved defaults cfg fields).2.2 ∧
      ∀ w, (hyphenate n, w) ∉ (ftLoop reserved defaults cfg fields).2.1 := by
  intro fields
  induction fields with
  | nil =>
    intro cfg n v _ hmem
    exact absurd hmem (by simp)
  | cons p rest ih =>
    obtain ⟨option, value⟩ := p
    intro cfg n v hnd hmem h1 h2 h3 h4 hfal
    simp only [List.map_cons, List.nodup_cons] at hnd
    rcases List.mem_cons.mp hmem with heq | hmemr
    · rw [Prod.mk.injEq] at heq
      obtain ⟨h5, h6⟩ := heq
      subst h5
      subst h6
      rw [ftLoop_cons]
      rw [if_neg (show ¬ ((n == "enable" || n == "disable") = true) by
        rw [h1, h2]; simp)]
      rw [if_neg (show ¬ (defaults.contains n = true) by rw [h3]; simp)]
      rw [if_neg (show ¬ (reserved.contains n = true) by rw [h4]; simp)]
      rw [if_pos (show (!v.truthy) = true by rw [hfal]; rfl)]
      refine ⟨List.mem_cons_self _ _, ?_⟩
      intro w hw
      replace hw : (hyphenate n, w) ∈
          (ftLoop reserved defaults cfg rest).2.1 := hw
      obtain ⟨m, val, hmm, hre, _⟩ :=
        ftLoop_chg_mem reserved defaults rest cfg _ hw
      have hfst : hyphenate n = hyphenate m := congrArg Prod.fst hre
      have hmem2 : hyphenate m ∈ rest.map (fun p => hyphenate p.1) :=
        List.mem_map.mpr ⟨(m, val), hmm, rfl⟩
      rw [← hfst] at hmem2
      exact hnd.1 hmem2
    · have hin : hyphenate n ∈ rest.map (fun p => hyphenate p.1) :=
        List.mem_map.mpr ⟨(n, v), hmemr, rfl⟩
      have hhne : hyphenate n ≠ hyphenate option := by
        intro hE
        rw [hE] at hin
        exact hnd.1 hin
      rw [ftLoop_cons]
      by_cases hc1 : (option == "enable" || option == "disable") = true
      · rw [if_pos hc1]
        exact ih cfg n v hnd.2 hmemr h1 h2 h3 h4 hfal
      · rw [if_neg hc1]
        by_cases hc2 : defaults.contains option = true
        · rw [if_pos hc2]
          exact ih cfg n v hnd.2 hmemr h1 h2 h3 h4 hfal
        · rw [if_neg hc2]
          by_cases hc3 : reserved.contains option = true
          · rw [if_pos hc3]
            exact ih cfg n v hnd.2 hmemr h1 h2 h3 h4 hfal
          · rw [if_neg hc3]
            by_cases hc4 : (!value.truthy) = true
            · rw [if_pos hc4]
              refine ⟨?_, ?_⟩
              · show ftCell cfg n ∈ ftCell cfg option ::
                  (ftLoop reserved defaults cfg rest).2.2
                exact List.mem_cons_of_mem _
                  (ih cfg n v hnd.2 hmemr h1 h2 h3 h4 hfal).1
              · intro w hw
                replace hw : (hyphenate n, w) ∈
                    (ftLoop reserved defaults cfg rest).2.1 := hw
                exact (ih cfg n v hnd.2 hmemr h1 h2 h3 h4 hfal).2 w hw
            · rw [if_neg hc4]
              have hne : n ≠ option := by
                intro he
                exact hhne (by rw [he])
              refine ⟨?_, ?_⟩
              · show ftCell cfg n ∈ (ftLoop reserved defaults
                  { cfg with vars := setattrVar cfg.vars option value }
                  rest).2.2
                have hmem3 := (ih { cfg with
                  vars := setattrVar cfg.vars option value }
                  n v hnd.2 hmemr h1 h2 h3 h4 hfal).1
                rwa [ftCell_setattr_ne cfg option value n hne] at hmem3
              · intro w hw
                replace hw : (hyphenate n, w) ∈ (hyphenate option, value) ::
                    (ftLoop reserved defaults
                      { cfg with vars := setattrVar cfg.vars option value }
                      rest).2.1 := hw
                rcases List.mem_cons.mp hw with hh | ht
                · exact hhne (congrArg Prod.fst hh)
                · exact (ih { cfg with
                    vars := setattrVar cfg.vars option value }
                    n v hnd.2 hmemr h1 h2 h3 h4 hfal).2 w ht

/-- The toggles only touch `enabled`: the attribute bag of the final config
object is the field loop's. -/
theorem ftExecute_config_vars (reserved defaults : List String)
    (cfg : TargetConfig) (args : FTArgs) :
    (ftExecute reserved defaults cfg args).config.vars =
      (ftLoop reserved defaults cfg args.fields).1.vars := by
  unfold ftExecute
  by_cases he : args.enable = true <;> by_cases hd : args.disable = true <;>
    simp [he, hd] <;> split <;> rfl

/-- The read-only table of the pass is the field loop's. -/
theorem ftExecute_table (reserved defaults : List String)
    (cfg : TargetConfig) (args : FTArgs) :
    (ftExecute reserved defaults cfg args).table =
      (ftLoop reserved defaults cfg args.fields).2.2 := by
  unfold ftExecute
  by_cases he : args.enable = true <;> by_cases hd : args.disable = true <;>
    simp [he, hd] <;> split <;> rfl

/-- The ChangeSet of the pass is the field loop's rows followed by the
`enabled` row the toggles append. -/
theorem ftExecute_changed_rows (reserved defaults : List String)
    (cfg : TargetConfig) (args : FTArgs) :
    (ftExecute reserved defaults cfg args).changed_rows =
      (ftLoop reserved defaults cfg args.fields).2.1 ++
        (if args.enable = true then [("enabled", Value.vBool true)]
         else if args.disable = true then [("enabled", Value.vBool false)]
         else []) := by
  unfold ftExecute
  by_cases he : args.enable = true <;> by_cases hd : args.disable = true <;>
    simp [he, hd] <;> split <;> rfl

/-- The pass returns the mutated config object exactly when the ChangeSet is
non-empty, and otherwise the tabulated report with the current enabled state
appended. -/
theorem ftExecute_result_spec (reserved defaults : List String)
    (cfg : TargetConfig) (args : FTArgs) :
    ((ftExecute reserved defaults cfg args).result =
        FTResult.obj (ftExecute reserved defaults cfg args).config ↔
      (ftExecute reserved defaults cfg args).changed_rows ≠ []) ∧
    ((ftExecute reserved defaults cfg args).changed_rows = [] →
      (ftExecute reserved defaults cfg args).result =
        FTResult.report ((ftExecute reserved defaults cfg args).table ++
          [("enabled", Value.vBool
            (ftExecute reserved defaults cfg args).config.enabled)])) := by
  unfold ftExecute
  by_cases he : args.enable = true
  · simp [he]
  · by_cases hd : args.disable = true
    · simp [he, hd]
    · simp only [he, hd, Bool.false_eq_true, if_false]
      cases hch : (ftLoop reserved defaults cfg args.fields).2.1 with
      | nil => simp [hch]
      | cons r rs => simp [hch]

/-- C6: in every `FilebeatTargetsInterface.execute` pass over a value-bag
with distinct flag names (argparse dests are unique and the `enabled`
attribute never derives a flag), each non-reserved, non-defaulted,
non-toggle field with a truthy value is assigned onto the config object and
recorded in the ChangeSet; each falsy eligible field appears only in the
read-only table, showing its current value or N/A; and the pass returns the
mutated config object exactly when the ChangeSet is non-empty, otherwise the
tabulated report with the current enabled state appended. -/
theorem c6_target_config_mutation (reserved defaults : List String)
    (cfg : TargetConfig) (args : FTArgs)
    (hnodup : ((args.fields.map fun p => hyphenate p.1) ++
      ["enabled"]).Nodup) :
    (∀ n v, (n, v) ∈ args.fields →
       (n == "enable") = false → (n == "disable") = false →
       defaults.contains n = false → reserved.contains n = false →
       v.truthy = true →
         getattrOpt (ftExecute reserved defaults cfg args).config.vars n =
           some v ∧
         (hyphenate n, v) ∈
           (ftExecute reserved defaults cfg args).changed_rows) ∧
    (∀ n v, (n, v) ∈ args.fields →
       (n == "enable") = false → (n == "disable") = false →
       defaults.contains n = false → reserved.contains n = false →
       v.truthy = false →
         ftCell cfg n ∈ (ftExecute reserved defaults cfg args).table ∧
         ∀ w, (hyphenate n, w) ∉
           (ftExecute reserved defaults cfg args).changed_rows) ∧
    (((ftExecute reserved defaults cfg args).result =
        FTResult.obj (ftExecute reserved defaults cfg args).config ↔
      (ftExecute reserved defaults cfg args).changed_rows ≠ []) ∧
     ((ftExecute reserved defaults cfg args).changed_rows = [] →
      (ftExecute reserved defaults cfg args).result =
        FTResult.report ((ftExecute reserved defaults cfg args).table ++
          [("enabled", Value.vBool
            (ftExecute reserved defaults cfg args).config.enabled)]))) := by
  have hhy : (args.fields.map fun p => hyphenate p.1).Nodup :=
    List.Nodup.of_append_left hnodup
  have hdisj : (args.fields.map fun p => hyphenate p.1).Disjoint ["enabled"] :=
    List.disjoint_of_nodup_append hnodup
  have hnames : (args.fields.map Prod.fst).Nodup := by
    have hmm : args.fields.map (fun p => hyphenate p.1) =
        (args.fields.map Prod.fst).map hyphenate := by
      simp [List.map_map, Function.comp]
    rw [hmm] at hhy
    exact List.Nodup.of_map hyphenate hhy
  have hhy2 : (args.fields.map fun p => hyphenate p.1).Nodup :=
    List.Nodup.of_append_left hnodup
  refine ⟨?_, ?_, ftExecute_result_spec reserved defaults cfg args⟩
  · intro n v hmem h1 h2 h3 h4 htr
    obtain ⟨hget, hchg⟩ := ftLoop_truthy reserved defaults args.fields cfg
      n v hnames hmem h1 h2 h3 h4 htr
    refine ⟨?_, ?_⟩
    · rw [ftExecute_config_vars]
      exact hget
    · rw [ftExecute_changed_rows]
      exact List.mem_append_left _ hchg
  · intro n v hmem h1 h2 h3 h4 hfal
    obtain ⟨htbl, hnot⟩ := ftLoop_falsy reserved defaults args.fields cfg
      n v hhy2 hmem h1 h2 h3 h4 hfal
    refine ⟨?_, ?_⟩
    · rw [ftExecute_table]
      exact htbl
    · intro w hw
      rw [ftExecute_changed_rows] at hw
      rcases List.mem_append.mp hw with hll | hrr
      · exact hnot w hll
      · have hne : hyphenate n ≠ "enabled" := by
          have hinn : hyphenate n ∈ args.fields.map
              (fun p => hyphenate p.1) :=
            List.mem_map.mpr ⟨(n, v), hmem, rfl⟩
          intro hE
          exact hdisj hinn (by rw [hE]; exact List.mem_singleton_self _)
        by_cases he : args.enable = true
        · rw [if_pos he] at hrr
          exact hne (congrArg Prod.fst (List.mem_singleton.mp hrr))
        · rw [if_neg he] at hrr
          by_cases hd : args.disable = true
          · rw [if_pos hd] at hrr
            exact hne (congrArg Prod.fst (List.mem_singleton.mp hrr))
          · rw [if_neg hd] at hrr
            exact absurd hrr (by simp)

/-- Witness for C6 at the spec's example: fields host (set to 10.0.0.5) and
port (left 0) on a config whose host is empty and port is 0. -/
theorem c6_target_config_mutation_witness :
    ((([("host", Value.vStr "10.0.0.5"),
        ("port", Value.vInt 0)].map fun p => hyphenate p.1) ++
      ["enabled"]).Nodup) ∧
    (getattrOpt (ftExecute [] []
        { vars := [("host", Value.vStr ""), ("port", Value.vInt 0)],
          enabled := false }
        { fields := [("host", Value.vStr "10.0.0.5"),
                     ("port", Value.vInt 0)],
          enable := false, disable := false }).config.vars "host" =
        some (Value.vStr "10.0.0.5") ∧
     (hyphenate "host", Value.vStr "10.0.0.5") ∈
       (ftExecute [] []
        { vars := [("host", Value.vStr ""), ("port", Value.vInt 0)],
          enabled := false }
        { fields := [("host", Value.vStr "10.0.0.5"),
                     ("port", Value.vInt 0)],
          enable := false, disable := false }).changed_rows) ∧
    (ftCell { vars := [("host", Value.vStr ""), ("port", Value.vInt 0)],
              enabled := false } "port" ∈
       (ftExecute [] []
        { vars := [("host", Value.vStr ""), ("port", Value.vInt 0)],
          enabled := false }
        { fields := [("host", Value.vStr "10.0.0.5"),
                     ("port", Value.vInt 0)],
          enable := false, disable := false }).table ∧
     ∀ w, (hyphenate "port", w) ∉
       (ftExecute [] []
        { vars := [("host", Value.vStr ""), ("port", Value.vInt 0)],
          enabled := false }
        { fields := [("host", Value.vStr "10.0.0.5"),
                     ("port", Value.vInt 0)],
          enable := false, disable := false }).changed_rows) :=
  ⟨by decide,
   (c6_target_config_mutation [] [] _ _ (by decide)).1 "host"
     (Value.vStr "10.0.0.5") (by decide) rfl rfl rfl rfl rfl,
   (c6_target_config_mutation [] [] _ _ (by decide)).2.1 "port"
     (Value.vInt 0) (by decide) rfl rfl rfl rfl rfl⟩

/-- C8 (amended): an externally supplied default overrides the
extraction-time behaviour and forces `required = false` exactly when it is
truthy, the flag then carrying that default; a falsy supplied default (`0`,
`false`, `''`) or an absent one fails the guard and leaves the flag exactly
as extraction without defaults produces it — in particular with no default
attached. Stated pointwise between the run with the defaults dictionary and
the run without one. -/
theorem c8_default_override_guard (anns : List (String × String))
    (docs : List (String × String)) (defaults : List (String × Value)) :
    List.Forall₂
      (fun apD ap0 =>
        apD.name = ap0.name ∧
        (dictGet defaults ap0.name = none → apD = ap0) ∧
        ∀ v, dictGet defaults ap0.name = some v →
          ((apD.kwargs.required = false ∧ apD.kwargs.default = some v) ↔
            v.truthy = true) ∧
          (v.truthy = false → apD = ap0))
      (getArgparseParameters anns docs (some defaults))
      (getArgparseParameters anns docs none) ∧
    ∀ ap ∈ getArgparseParameters anns docs none,
      ap.kwargs.default = none := by
  constructor
  · induction anns with
    | nil => exact List.Forall₂.nil
    | cons hd tl ih =>
      obtain ⟨n, dt⟩ := hd
      by_cases hret : (n == "return") = true
      · rw [getArgparseParameters, if_pos hret, getArgparseParameters,
          if_pos hret]
        exact ih
      · rw [getArgparseParameters, if_neg hret, getArgparseParameters,
          if_neg hret]
        refine List.Forall₂.cons ?_ ih
        have hcond0 : (defaultsTruthy none &&
            truthyOpt (defaultsGet none n)) = false := rfl
        cases hdoc : dictGet docs n with
        | none =>
          simp only [hdoc, hcond0, Bool.false_eq_true, if_false]
          by_cases hC : (defaultsTruthy (some defaults) &&
              truthyOpt (defaultsGet (some defaults) n)) = true
          · rw [if_pos hC]
            have hC2 : defaultsTruthy (some defaults) = true ∧
                truthyOpt (defaultsGet (some defaults) n) = true := by
              simpa using hC
            obtain ⟨hdt, htv⟩ := hC2
            refine ⟨rfl, ?_, ?_⟩
            · intro hn
              exfalso
              have hn' : defaultsGet (some defaults) n = none := hn
              rw [hn'] at htv
              exact absurd htv (by simp [truthyOpt])
            · intro v hv
              have hv' : defaultsGet (some defaults) n = some v := hv
              rw [hv'] at htv
              have htr : v.truthy = true := htv
              constructor
              · constructor
                · intro _
                  exact htr
                · intro _
                  rw [hv']
                  exact ⟨(deriveParams_truthy_default dt v htr).1,
                         (deriveParams_truthy_default dt v htr).2⟩
              · intro hfal
                rw [htr] at hfal
                simp at hfal
          · rw [if_neg hC]
            refine ⟨rfl, fun _ => rfl, ?_⟩
            intro v hv
            have hv' : defaultsGet (some defaults) n = some v := hv
            have hdt : defaultsTruthy (some defaults) = true := by
              cases hds : defaults with
              | nil =>
                rw [hds] at hv
                simp [dictGet] at hv
              | cons p ps => rfl
            rw [hv', hdt] at hC
            have hfal : v.truthy = false := by
              simpa [truthyOpt] using hC
            constructor
            · constructor
              · rintro ⟨_, hdef⟩
                exfalso
                have hde : (createFromTypingAnn n dt none).kwargs.default =
                    none := rfl
                rw [hde] at hdef
                exact Option.noConfusion hdef
              · intro htr
                rw [htr] at hfal
                simp at hfal
            · intro _
              rfl
        | some d =>
          simp only [hdoc, hcond0, Bool.false_eq_true, if_false]
          by_cases hC : (defaultsTruthy (some defaults) &&
              truthyOpt (defaultsGet (some defaults) n)) = true
          · rw [if_pos hC]
            have hC2 : defaultsTruthy (some defaults) = true ∧
                truthyOpt (defaultsGet (some defaults) n) = true := by
              simpa using hC
            obtain ⟨hdt, htv⟩ := hC2
            refine ⟨rfl, ?_, ?_⟩
            · intro hn
              exfalso
              have hn' : defaultsGet (some defaults) n = none := hn
              rw [hn'] at htv
              exact absurd htv (by simp [truthyOpt])
            · intro v hv
              have hv' : defaultsGet (some defaults) n = some v := hv
              rw [hv'] at htv
              have htr : v.truthy = true := htv
              constructor
              · constructor
                · intro _
                  exact htr
                · intro _
                  rw [hv']
                  exact ⟨(deriveParams_truthy_default dt v htr).1,
                         (deriveParams_truthy_default dt v htr).2⟩
              · intro hfal
                rw [htr] at hfal
                simp at hfal
          · rw [if_neg hC]
            refine ⟨rfl, fun _ => rfl, ?_⟩
            intro v hv
            have hv' : defaultsGet (some defaults) n = some v := hv
            have hdt : defaultsTruthy (some defaults) = true := by
              cases hds : defaults with
              | nil =>
                rw [hds] at hv
                simp [dictGet] at hv
              | cons p ps => rfl
            rw [hv', hdt] at hC
            have hfal : v.truthy = false := by
              simpa [truthyOpt] using hC
            constructor
            · constructor
              · rintro ⟨_, hdef⟩
                exfalso
                have hde : (createFromTypingAnn n dt none).kwargs.default =
                    none := rfl
                rw [hde] at hdef
                exact Option.noConfusion hdef
              · intro htr
                rw [htr] at hfal
                simp at hfal
            · intro _
              rfl
  · induction anns with
    | nil =>
      intro ap hap
      exact absurd hap (by simp [getArgparseParameters])
    | cons hd tl ih =>
      obtain ⟨n, dt⟩ := hd
      intro ap hap
      by_cases hret : (n == "return") = true
      · rw [getArgparseParameters, if_pos hret] at hap
        exact ih ap hap
      · rw [getArgparseParameters, if_neg hret] at hap
        rcases List.mem_cons.mp hap with heq | hmem
        · subst heq
          cases hdoc : dictGet docs n <;>
            simp [hdoc, defaultsTruthy, createFromTypingAnn,
              deriveParamsFromTypeAnn, dropEmptyDefault]
        · exact ih ap hmem
